import Mathlib

/-!
Verification development for the `web_mapper` crawler
(`src/web_mapper/scrapers/{patterns,mapper_errors,mapper}.py`).

The Python code is shallowly embedded as executable Lean definitions:

* `patterns.py` — `DOMAIN_PATTERN` is the regex
  `https?://(?:www\.)?[-a-zA-Z0-9]{1,63}(?:\.[a-zA-Z]{2,6})+/?` (unanchored)
  used through `findall`; `LINK_PATTERN` is `^/` used through `match`.
  The backtracking leftmost-match search of Python `re` is modelled
  directly for this concrete pattern (`matchDomainAt`, `findFirstDomain`).
* `mapper_errors.py` — `MapperErros` / `MapperURLInvalidError`.
* `mapper.py` — the `Mapper` class.  Mutable state (`visited`,
  `all_links`) becomes an explicit `CrawlSt` record threaded through the
  traversal; the HTTP fetch plus link extraction
  (`_get_page`/`_find_links`) is an oracle `fetch : String → Option (List
  String)` where `none` models the `RequestException` path (which the code
  turns into an empty soup, hence zero links).
* `urllib.parse.urlparse` / `urljoin` (Python 3.11 semantics) are modelled
  on `List Char` (`urlparseL`, `urljoinRooted`).

All definitions are structurally recursive and kernel-computable so that
concrete crawls can be settled by `decide`.
-/

/-- Chars removed anywhere in a URL by `urllib.parse.urlsplit`
(`_UNSAFE_URL_BYTES_TO_REMOVE`: tab, CR, LF). -/
def removeTabsCRLF (l : List Char) : List Char :=
  l.filter (fun c => !(c = '\t' || c = '\r' || c = '\n'))

/-- Chars stripped from both ends of a URL by `urlsplit`
(`_WHATWG_C0_CONTROL_OR_SPACE`: code points 0x00–0x20). -/
def isC0OrSpace (c : Char) : Bool := c.toNat ≤ 32

/-- Leading/trailing C0-control-or-space stripping done by `urlsplit`. -/
def stripC0 (l : List Char) : List Char :=
  ((l.dropWhile isC0OrSpace).reverse.dropWhile isC0OrSpace).reverse

/-- Full input sanitisation performed at the top of `urlsplit`. -/
def cleanseUrl (l : List Char) : List Char :=
  removeTabsCRLF (stripC0 l)

/-- Scheme characters accepted by `urlsplit` (`scheme_chars`). -/
def isSchemeChar (c : Char) : Bool :=
  c.isAlphanum || c = '+' || c = '-' || c = '.'

/-- Split a char list at the first occurrence of `t`; `none` if absent.
Models Python `str.split(t, 1)` / `str.find(t)`. -/
def breakAtChar (t : Char) : List Char → Option (List Char × List Char)
  | [] => none
  | c :: cs =>
    if c = t then some ([], cs)
    else (breakAtChar t cs).map (fun p => (c :: p.1, p.2))

/-- Scheme detection of `urlsplit`: `i = url.find(':')`; the part before
the first colon is a scheme when it is nonempty, starts with an ASCII
letter and consists of scheme chars; it is then lower-cased and removed. -/
def schemeSplitL (s : List Char) : List Char × List Char :=
  match breakAtChar ':' s with
  | some (pre, post) =>
    (match pre with
     | [] => ([], s)
     | c :: _ =>
       if c.isAlpha && pre.all isSchemeChar then (pre.map Char.toLower, post)
       else ([], s))
  | none => ([], s)

/-- Delimiters ending the network-location component in `urlsplit`. -/
def isNetlocEnd (c : Char) : Bool := c = '/' || c = '?' || c = '#'

/-- Result of `urllib.parse.urlparse` (the components `_is_valid_url`
and `urljoin` read: scheme, netloc, path, params, query, fragment). -/
structure UrlParts where
  scheme : List Char
  netloc : List Char
  path : List Char
  pars : List Char
  query : List Char
  fragment : List Char
deriving DecidableEq

/-- Split of `;params` from the path, as `urlparse._splitparams`: the
split happens at the first `;` at-or-after the last `/` (or the first `;`
when the path has no `/`); no split if no such `;`. -/
def splitParamsL (p : List Char) : List Char × List Char :=
  if ';' ∈ p then
    if '/' ∈ p then
      let back := (p.reverse.takeWhile (fun c => !(c = '/'))).reverse
      let front := p.take (p.length - back.length)
      match breakAtChar ';' back with
      | some (a, b) => (front ++ a, b)
      | none => (p, [])
    else
      match breakAtChar ';' p with
      | some (a, b) => (a, b)
      | none => (p, [])
  else (p, [])

/-- Model of `urllib.parse.urlparse` on a char list: sanitise, split
scheme, then (when the remainder starts with `//`) netloc up to the first
`/`, `?` or `#`, then fragment at the first `#`, query at the first `?`,
and finally `;params` out of the path. -/
def urlparseL (s0 : List Char) : UrlParts :=
  let s := cleanseUrl s0
  let sch := schemeSplitL s
  let nl :=
    match sch.2 with
    | '/' :: '/' :: r => (r.takeWhile (fun c => !(isNetlocEnd c)), r.dropWhile (fun c => !(isNetlocEnd c)))
    | r => ([], r)
  let fr :=
    match breakAtChar '#' nl.2 with
    | some (a, b) => (a, b)
    | none => (nl.2, [])
  let qu :=
    match breakAtChar '?' fr.1 with
    | some (a, b) => (a, b)
    | none => (fr.1, [])
  let pp := splitParamsL qu.1
  { scheme := sch.1, netloc := nl.1, path := pp.1, pars := pp.2,
    query := qu.2, fragment := fr.2 }

/-- Python `str.split(sep)` for a single separator char
(`''.split('/') = ['']`, `'/a'.split('/') = ['', 'a']`, ...). -/
def splitOnChar (t : Char) : List Char → List (List Char)
  | [] => [[]]
  | c :: cs =>
    if c = t then [] :: splitOnChar t cs
    else
      match splitOnChar t cs with
      | s :: rest => (c :: s) :: rest
      | [] => [[c]]

/-- Segment resolution step of `urljoin`: `..` pops (ignoring underflow),
`.` is dropped, anything else is appended. -/
def resolveSeg (acc : List (List Char)) (seg : List Char) : List (List Char) :=
  if seg = ['.', '.'] then acc.dropLast
  else if seg = ['.'] then acc
  else acc ++ [seg]

/-- Python `'/'.join(segments)` on char-list segments. -/
def joinSegs : List (List Char) → List Char
  | [] => []
  | [s] => s
  | s :: rest => s ++ '/' :: joinSegs rest

/-- Reassembly per `urlunparse`/`urlunsplit`: re-attach `;params`, then
`//netloc` (inserting a `/` before a rootless path), then `scheme:`,
`?query`, `#fragment`. -/
def unparseL (scheme netloc path pars query fragment : List Char) : String :=
  let u0 := if pars = [] then path else path ++ ';' :: pars
  let u1 :=
    if netloc ≠ [] ∨ u0.take 2 = ['/', '/'] then
      '/' :: '/' :: (netloc ++ (if u0 ≠ [] ∧ u0.take 1 ≠ ['/'] then '/' :: u0 else u0))
    else u0
  let u2 := if scheme ≠ [] then scheme ++ ':' :: u1 else u1
  let u3 := if query ≠ [] then u2 ++ '?' :: query else u2
  let u4 := if fragment ≠ [] then u3 ++ '#' :: fragment else u3
  String.mk u4

/-- Model of `urllib.parse.urljoin(base, link)` for the links the crawler
builds.  The crawler only calls it with `base = self.domain` (an absolute
`http(s)://host` URL) and raw links that start with `/`, so the
`scheme != bscheme` early-return branches of the Python code are never
taken; the remaining branches are modelled in full: a link carrying its
own netloc (`//host/...` — possibly arising from sanitisation) is
reassembled directly, an empty path inherits the base path/query, and
otherwise the path segments are resolved (`.`/`..`) against the base. -/
def urljoinRooted (base link : String) : String :=
  let bp := urlparseL base.data
  let lp := urlparseL link.data
  if lp.netloc ≠ [] then
    unparseL bp.scheme lp.netloc lp.path lp.pars lp.query lp.fragment
  else if lp.path = [] ∧ lp.pars = [] then
    unparseL bp.scheme bp.netloc bp.path bp.pars
      (if lp.query = [] then bp.query else lp.query) lp.fragment
  else
    let segs :=
      if lp.path.take 1 = ['/'] then splitOnChar '/' lp.path
      else (splitOnChar '/' bp.path).dropLast ++ splitOnChar '/' lp.path
    let res := segs.foldl resolveSeg []
    let res2 :=
      if segs.getLast? = some ['.'] ∨ segs.getLast? = some ['.', '.'] then res ++ [[]]
      else res
    let joined := joinSegs res2
    let path2 := if joined = [] then ['/'] else joined
    unparseL bp.scheme bp.netloc path2 lp.pars lp.query lp.fragment

/-- Python `str.endswith` on char lists. -/
def endsWithL (l suf : List Char) : Bool :=
  decide (suf.length ≤ l.length) && decide (l.drop (l.length - suf.length) = suf)

/-- Host characters of `DOMAIN_PATTERN`: the class `[-a-zA-Z0-9]`. -/
def isHostChar (c : Char) : Bool := c = '-' || c.isAlphanum

/-- Length of the maximal run of chars satisfying `p`. -/
def takeRun (p : Char → Bool) : List Char → Nat
  | [] => 0
  | c :: cs => if p c then takeRun p cs + 1 else 0

/-- One group `\.[a-zA-Z]{2,6}` of `DOMAIN_PATTERN`, matched greedily:
a dot followed by at least two letters consumes the dot plus
`min 6 run` letters (nothing after the group ever forces backtracking,
since the rest of the pattern is `(...)* /?` which always succeeds). -/
def tldGroupLen (s : List Char) : Option Nat :=
  match s with
  | '.' :: r =>
    if 2 ≤ takeRun Char.isAlpha r then some (1 + min 6 (takeRun Char.isAlpha r)) else none
  | _ => none

/-- Chars consumed by further greedy iterations of `(?:\.[a-zA-Z]{2,6})`.
The fuel is the remaining input length; each iteration consumes at least
three chars, so `s.length` fuel is always enough. -/
def tldMoreFuel : Nat → List Char → Nat
  | 0, _ => 0
  | f + 1, s =>
    match tldGroupLen s with
    | some n => n + tldMoreFuel f (s.drop n)
    | none => 0

/-- Chars consumed by `(?:\.[a-zA-Z]{2,6})+/?`: at least one group, then
further greedy groups, then an optional slash. -/
def tldSectionLen (s : List Char) : Option Nat :=
  match tldGroupLen s with
  | none => none
  | some n =>
    let t := n + tldMoreFuel (s.drop n).length (s.drop n)
    match s.drop t with
    | '/' :: _ => some (t + 1)
    | _ => some t

/-- Backtracking of the greedy `[-a-zA-Z0-9]{1,63}` host: try host length
`k`, `k-1`, ..., `1` (the caller starts `k` at `min 63 run`), each time
requiring the tld section to match right after the host. -/
def hostTry : Nat → List Char → Option Nat
  | 0, _ => none
  | k + 1, s =>
    match tldSectionLen (s.drop (k + 1)) with
    | some n => some (k + 1 + n)
    | none => hostTry k s

/-- Chars consumed by `(?:www\.)?[-a-zA-Z0-9]{1,63}(?:\.[a-zA-Z]{2,6})+/?`:
the greedy optional `www.` is tried first and backtracked on failure. -/
def hostSectionLen (s : List Char) : Option Nat :=
  match s with
  | 'w' :: 'w' :: 'w' :: '.' :: r =>
    (match hostTry (min 63 (takeRun isHostChar r)) r with
     | some n => some (4 + n)
     | none => hostTry (min 63 (takeRun isHostChar s)) s)
  | _ => hostTry (min 63 (takeRun isHostChar s)) s

/-- Chars consumed by `DOMAIN_PATTERN` when anchored at the head of `s`
(`https?://` literal, then the host section); `none` if no match here. -/
def matchDomainAt (s : List Char) : Option Nat :=
  match s with
  | 'h' :: 't' :: 't' :: 'p' :: 's' :: ':' :: '/' :: '/' :: r =>
    (match hostSectionLen r with
     | some n => some (8 + n)
     | none => none)
  | 'h' :: 't' :: 't' :: 'p' :: ':' :: '/' :: '/' :: r =>
    (match hostSectionLen r with
     | some n => some (7 + n)
     | none => none)
  | _ => none

/-- Leftmost-match scan of Python `re`: try every start position from the
left; the first position where the pattern matches yields the match. -/
def findFirstDomainAux : List Char → Option (List Char)
  | [] => none
  | c :: cs =>
    match matchDomainAt (c :: cs) with
    | some n => some ((c :: cs).take n)
    | none => findFirstDomainAux cs

/-- First element of `DOMAIN_PATTERN.findall(s)` (the leftmost match),
or `none` when `findall` returns the empty list. -/
def findFirstDomain (s : String) : Option String :=
  (findFirstDomainAux s.data).map String.mk

/-- Python `str.strip('/')`: remove leading and trailing slashes. -/
def stripSlashes (s : String) : String :=
  String.mk (((s.data.dropWhile (fun c => c = '/')).reverse.dropWhile (fun c => c = '/')).reverse)

/-- Test whether `LINK_PATTERN` (`^/`) matches, i.e. the string starts
with a slash. -/
def linkMatches (l : String) : Bool := l.data.take 1 = ['/']

-- sanity checks mirroring src/tests/test_patterns.py and observed
-- Python `re` behaviour on DOMAIN_PATTERN
example : findFirstDomain "https://www.google.com" = some "https://www.google.com" := by decide
example : findFirstDomain "http://www.google.com" = some "http://www.google.com" := by decide
example : findFirstDomain "https://google.com" = some "https://google.com" := by decide
example : findFirstDomain "google.com" = none := by decide
example : findFirstDomain "http://google" = none := by decide
example : findFirstDomain "http://google." = none := by decide
example : findFirstDomain "http://google.." = none := by decide
example : findFirstDomain "http://google.com." = some "http://google.com" := by decide
example : findFirstDomain "see http://example.com/ now" = some "http://example.com/" := by decide
example : findFirstDomain "http://a.abcdefgh" = some "http://a.abcdef" := by decide
example : findFirstDomain "http://a.ab.x" = some "http://a.ab" := by decide
example : findFirstDomain "http://www.com" = some "http://www.com" := by decide
example : findFirstDomain "xhttp://a.com/extra" = some "http://a.com/" := by decide
example : findFirstDomain "httphttp://x.com" = some "http://x.com" := by decide
example : urljoinRooted "http://x.com" "/" = "http://x.com/" := by decide
example : urljoinRooted "http://x.com" "/a" = "http://x.com/a" := by decide
example : urljoinRooted "http://x.com" "/a/../../b" = "http://x.com/b" := by decide
example : urljoinRooted "http://x.com" "/.." = "http://x.com/" := by decide
example : urljoinRooted "http://x.com" "//evil.com/z" = "http://evil.com/z" := by decide
example : urljoinRooted "http://x.com" "//" = "http://x.com" := by decide
example : urljoinRooted "http://x.com" "/a/." = "http://x.com/a/" := by decide
example : urljoinRooted "http://x.com" "/a;p" = "http://x.com/a;p" := by decide
example : urljoinRooted "http://x.com" "/a/..;p" = "http://x.com/;p" := by decide
example : urljoinRooted "http://x.com" "/a?q#f" = "http://x.com/a?q#f" := by decide
example : (urlparseL "http://host.com/file.pdf;x?q#f".data).netloc = "host.com".data := by decide
example : (urlparseL "http://host.com/file.pdf;x?q#f".data).path = "/file.pdf".data := by decide

example : urljoinRooted "http://x.com" "/\t/a" = "http://a" := by decide

/-- Modelled from the spec: full anchored match against
`^https?://(?:www\.)?[-a-zA-Z0-9]{1,63}(?:\.[a-zA-Z]{2,6})+/?$` for the
tail `(?:\.[a-zA-Z]{2,6})+/?$`, in existential (backtracking) semantics:
some number of dot-groups of 2–6 letters, then an optional final slash,
consuming the whole input.  Fuel is the input length (every group
consumes at least three chars). -/
def specTldGroups : Nat → List Char → Bool
  | 0, _ => false
  | f + 1, s =>
    match s with
    | '.' :: r =>
      [2, 3, 4, 5, 6].any (fun k =>
        decide ((r.take k).length = k) && (r.take k).all Char.isAlpha &&
          (decide (r.drop k = []) || decide (r.drop k = ['/']) || specTldGroups f (r.drop k)))
    | _ => false

/-- Modelled from the spec: anchored host part
`[-a-zA-Z0-9]{1,63}(?:\.[a-zA-Z]{2,6})+/?$` — some host length between 1
and 63 followed by the anchored tld tail. -/
def specHostTlds (s : List Char) : Bool :=
  (List.range 63).any (fun j =>
    decide ((s.take (j + 1)).length = j + 1) && (s.take (j + 1)).all isHostChar &&
      specTldGroups (s.drop (j + 1)).length (s.drop (j + 1)))

/-- Modelled from the spec: anchored `(?:www\.)?` then the host part. -/
def specAfterScheme (s : List Char) : Bool :=
  match s with
  | 'w' :: 'w' :: 'w' :: '.' :: r => specHostTlds r || specHostTlds s
  | _ => specHostTlds s

/-- Modelled from the spec (§6): whether a string matches the
absolute-domain pattern anchored at both ends,
`^https?://(?:www\.)?[-a-zA-Z0-9]{1,63}(?:\.[a-zA-Z]{2,6})+/?$`. -/
def specDomainFullMatch (s : String) : Bool :=
  match s.data with
  | 'h' :: 't' :: 't' :: 'p' :: 's' :: ':' :: '/' :: '/' :: r => specAfterScheme r
  | 'h' :: 't' :: 't' :: 'p' :: ':' :: '/' :: '/' :: r => specAfterScheme r
  | _ => false

example : specDomainFullMatch "https://www.google.com" = true := by decide
example : specDomainFullMatch "http://google.com/" = true := by decide
example : specDomainFullMatch "http://www.ab" = true := by decide
example : specDomainFullMatch "http://google" = false := by decide
example : specDomainFullMatch "http://google.com." = false := by decide
example : specDomainFullMatch "see http://example.com/ now" = false := by decide

/-- Model of `mapper_errors.py`: `MapperErros` is the base exception
class; its only subclass is `MapperURLInvalidError`. -/
inductive MapperErros where
  | urlInvalid : MapperErros
deriving DecidableEq

/-- Fixed message installed by `MapperURLInvalidError.__init__`. -/
def MapperErros.message : MapperErros → String
  | .urlInvalid => "URL fornecida não é válida."

/-- Immutable part of the `Mapper` object: `domain`, `max_depth`,
`rate_limit` (the Python float is modelled as a rational; it is only ever
slept on, never used in the traversal logic). -/
structure Mapper where
  domain : String
  max_depth : Int
  rate_limit : Rat
deriving DecidableEq

/-- Model of `Mapper.__init__`: `DOMAIN_PATTERN.findall(domain)`; if the
list is empty raise `MapperURLInvalidError`, else store
`match[0].strip('/')` plus the configuration.  `visited`/`all_links`
start empty and live in `CrawlSt`. -/
def Mapper.init (domain : String) (max_depth : Int) (rate_limit : Rat) :
    Except MapperErros Mapper :=
  match findFirstDomain domain with
  | none => Except.error MapperErros.urlInvalid
  | some m => Except.ok { domain := stripSlashes m, max_depth := max_depth, rate_limit := rate_limit }

/-- Mutable crawl state of a `Mapper`: the `visited` and `all_links`
sets, modelled as duplicate-free lists (insertion is guarded). -/
structure CrawlSt where
  visited : List String
  all_links : List String
deriving DecidableEq

/-- Python `set.add` on the list model of a set. -/
def insertS (a : String) (l : List String) : List String :=
  if a ∈ l then l else a :: l

/-- First-occurrence deduplication; models the set-comprehension collapse
in `_clean_links` (Python set iteration order is arbitrary, a concrete
deterministic order is chosen here). -/
def dedupFirst : List String → List String → List String
  | _, [] => []
  | seen, l :: ls =>
    if l ∈ seen then dedupFirst seen ls else l :: dedupFirst (l :: seen) ls

/-- Model of `Mapper._clean_links`: keep the links that are truthy
(non-empty) and match `LINK_PATTERN`, collapsing duplicates. -/
def clean_links (links : List String) : List String :=
  dedupFirst [] (links.filter (fun l => !l.data.isEmpty && linkMatches l))

/-- Model of `Mapper._is_valid_url`: compare the `urlparse` netloc of the
URL with the netloc of the configured domain, then reject paths ending in
a non-content extension. -/
def Mapper.is_valid_url (m : Mapper) (url : String) : Bool :=
  let pu := urlparseL url.data
  let pd := urlparseL m.domain.data
  if pu.netloc = pd.netloc then
    if [".pdf", ".jpg", ".jpeg", ".png", ".gif", ".svg"].any
        (fun e => endsWithL pu.path e.data) then false
    else true
  else false

/-- Links of a page as the crawler sees them: the composite of
`_get_page` and `_find_links`.  `fetch url = none` models a
`RequestException` (the code logs it and builds an empty soup, in which
`_find_links` finds no anchors, so the node yields zero links). -/
def linksOf (fetch : String → Option (List String)) (url : String) : List String :=
  (fetch url).getD []

/-- Body of the `for link in clean_links` loop of `Mapper.crawl`: resolve
the link against the stored domain, and when it is valid and unvisited,
add it to `all_links` and recurse (`rec`); `_rate_limit_wait` only sleeps
and is a no-op on the state. -/
def crawlStep (rec : String → CrawlSt → CrawlSt) (m : Mapper) :
    List String → CrawlSt → CrawlSt
  | [], st => st
  | l :: ls, st =>
    crawlStep rec m ls
      (if m.is_valid_url (urljoinRooted m.domain l) = true ∧
          urljoinRooted m.domain l ∉ st.visited
       then rec (urljoinRooted m.domain l)
         { st with all_links := insertS (urljoinRooted m.domain l) st.all_links }
       else st)

/-- Recursion of `Mapper.crawl`, reindexed by the gas
`(max_depth + 1 - depth).toNat`: gas `0` is exactly the
`depth > max_depth` early return (checked before the visited check, as in
the source), and the recursive call at `depth + 1` runs at gas one less.
The remaining body follows the source line by line: visited check, mark
visited, fetch and extract, clean, loop over the cleaned links. -/
def crawlGas (m : Mapper) (fetch : String → Option (List String)) :
    Nat → String → CrawlSt → CrawlSt
  | 0, _, st => st
  | gas + 1, url, st =>
    if url ∈ st.visited then st
    else crawlStep (crawlGas m fetch gas) m (clean_links (linksOf fetch url))
      { visited := insertS url st.visited, all_links := st.all_links }

/-- Model of `Mapper.crawl(url, depth)`. -/
def Mapper.crawl (m : Mapper) (fetch : String → Option (List String))
    (url : String) (depth : Int) (st : CrawlSt) : CrawlSt :=
  crawlGas m fetch (m.max_depth + 1 - depth).toNat url st

/-- Lexicographic comparison of code points, as Python string `<=`
(the order `sorted` sorts ascending by). -/
def lexLe : List Char → List Char → Bool
  | [], _ => true
  | _ :: _, [] => false
  | a :: as, b :: bs =>
    if a.toNat < b.toNat then true
    else if b.toNat < a.toNat then false
    else lexLe as bs

/-- String comparison used to model `sorted` on URL strings. -/
def strLe (a b : String) : Bool := lexLe a.data b.data

/-- Model of `Mapper.map_web_site`: crawl from the stored domain at depth
0 on the current state, then return `sorted(self.all_links)`. -/
def Mapper.map_web_site (m : Mapper) (fetch : String → Option (List String))
    (st : CrawlSt) : List String :=
  ((m.crawl fetch m.domain 0 st).all_links).mergeSort strLe

/-- Decidable equality on construction results, so that concrete
constructions can be settled by `decide`. -/
instance : DecidableEq (Except MapperErros Mapper) := fun
  | Except.error a, Except.error b =>
    if h : a = b then isTrue (by rw [h]) else isFalse (by intro he; cases he; exact h rfl)
  | Except.ok a, Except.ok b =>
    if h : a = b then isTrue (by rw [h]) else isFalse (by intro he; cases he; exact h rfl)
  | Except.error _, Except.ok _ => isFalse (by intro h; cases h)
  | Except.ok _, Except.error _ => isFalse (by intro h; cases h)

-- sanity checks mirroring src/tests/test_mapper.py
example : Mapper.init "https://www.google.com" 2 1 =
    Except.ok { domain := "https://www.google.com", max_depth := 2, rate_limit := 1 } := by decide
example : Mapper.init "google.com" 2 1 = Except.error MapperErros.urlInvalid := by decide
example : clean_links ["/path/to/page", "/path/to/page/", "/path/to/page.html"] =
    ["/path/to/page", "/path/to/page/", "/path/to/page.html"] := by decide
example : clean_links ["http://google.com", "https://google.com", "ftp://google.com"] = [] := by decide
example :
    (Mapper.is_valid_url { domain := "https://www.google.com", max_depth := 2, rate_limit := 1 }
      "https://www.google.com" = true) ∧
    (Mapper.is_valid_url { domain := "https://www.google.com", max_depth := 2, rate_limit := 1 }
      "http://www.google.com" = true) ∧
    (Mapper.is_valid_url { domain := "https://www.google.com", max_depth := 2, rate_limit := 1 }
      "http://www.google.com/test.pdf" = false) ∧
    (Mapper.is_valid_url { domain := "https://www.google.com", max_depth := 2, rate_limit := 1 }
      "https://google.com" = false) ∧
    (Mapper.is_valid_url { domain := "https://www.google.com", max_depth := 2, rate_limit := 1 }
      "google.com" = false) := by decide

/-! Helper lemmas about the set model. -/

theorem mem_insertS {x a : String} {l : List String} :
    x ∈ insertS a l ↔ x = a ∨ x ∈ l := by
  unfold insertS
  by_cases h : a ∈ l
  · rw [if_pos h]
    constructor
    · exact fun hx => Or.inr hx
    · rintro (rfl | hx)
      · exact h
      · exact hx
  · rw [if_neg h]
    exact List.mem_cons

theorem nodup_insertS {a : String} {l : List String} (h : l.Nodup) :
    (insertS a l).Nodup := by
  unfold insertS
  by_cases hm : a ∈ l
  · rwa [if_pos hm]
  · rw [if_neg hm]
    exact List.nodup_cons.mpr ⟨hm, h⟩

theorem mem_dedupFirst {x : String} :
    ∀ (seen ls : List String), x ∈ dedupFirst seen ls ↔ x ∈ ls ∧ x ∉ seen := by
  intro seen ls
  induction ls generalizing seen with
  | nil => simp [dedupFirst]
  | cons l ls ih =>
    simp only [dedupFirst]
    by_cases h : l ∈ seen
    · rw [if_pos h, ih]
      constructor
      · exact fun ⟨h1, h2⟩ => ⟨List.mem_cons_of_mem _ h1, h2⟩
      · rintro ⟨h1, h2⟩
        rcases List.mem_cons.mp h1 with rfl | h1
        · exact absurd h h2
        · exact ⟨h1, h2⟩
    · rw [if_neg h]
      rw [List.mem_cons, ih]
      constructor
      · rintro (rfl | ⟨h1, h2⟩)
        · exact ⟨List.mem_cons_self _ _, h⟩
        · exact ⟨List.mem_cons_of_mem _ h1, fun hx => h2 (List.mem_cons_of_mem _ hx)⟩
      · rintro ⟨h1, h2⟩
        rcases List.mem_cons.mp h1 with rfl | h1
        · exact Or.inl rfl
        · by_cases hxl : x = l
          · exact Or.inl hxl
          · exact Or.inr ⟨h1, fun hx => by
              rcases List.mem_cons.mp hx with h3 | h3
              · exact hxl h3
              · exact h2 h3⟩

theorem nodup_dedupFirst : ∀ (seen ls : List String), (dedupFirst seen ls).Nodup := by
  intro seen ls
  induction ls generalizing seen with
  | nil => exact List.nodup_nil
  | cons l ls ih =>
    simp only [dedupFirst]
    by_cases h : l ∈ seen
    · rw [if_pos h]; exact ih seen
    · rw [if_neg h]
      refine List.nodup_cons.mpr ⟨?_, ih (l :: seen)⟩
      intro hmem
      exact ((mem_dedupFirst _ _).mp hmem).2 (List.mem_cons_self _ _)

theorem dedupFirst_eq_self :
    ∀ (seen ls : List String), ls.Nodup → (∀ x ∈ ls, x ∉ seen) →
      dedupFirst seen ls = ls := by
  intro seen ls
  induction ls generalizing seen with
  | nil => intro _ _; rfl
  | cons l ls ih =>
    intro hnd hdisj
    simp only [dedupFirst]
    rw [if_neg (hdisj l (List.mem_cons_self _ _))]
    rw [ih (l :: seen) (List.nodup_cons.mp hnd).2]
    intro x hx
    intro hmem
    rcases List.mem_cons.mp hmem with rfl | hmem
    · exact (List.nodup_cons.mp hnd).1 hx
    · exact hdisj x (List.mem_cons_of_mem _ hx) hmem

/-! Preservation lemmas over the crawl recursion. -/

theorem crawlStep_preserve (rec : String → CrawlSt → CrawlSt) (m : Mapper)
    (P : CrawlSt → Prop)
    (hrec : ∀ u st, P st → P (rec u st))
    (hins : ∀ u st, P st → u ∉ st.visited →
      P { st with all_links := insertS u st.all_links }) :
    ∀ (ls : List String) (st : CrawlSt), P st → P (crawlStep rec m ls st) := by
  intro ls
  induction ls with
  | nil => exact fun st h => h
  | cons l ls ih =>
    intro st h
    simp only [crawlStep]
    apply ih
    by_cases hc : m.is_valid_url (urljoinRooted m.domain l) = true ∧
        urljoinRooted m.domain l ∉ st.visited
    · rw [if_pos hc]
      exact hrec _ _ (hins _ _ h hc.2)
    · rw [if_neg hc]
      exact h

theorem crawlGas_preserve (m : Mapper) (fetch : String → Option (List String))
    (P : CrawlSt → Prop)
    (hvis : ∀ u st, P st → P { visited := insertS u st.visited, all_links := st.all_links })
    (hins : ∀ u st, P st → u ∉ st.visited →
      P { st with all_links := insertS u st.all_links }) :
    ∀ (gas : Nat) (url : String) (st : CrawlSt), P st → P (crawlGas m fetch gas url st) := by
  intro gas
  induction gas with
  | zero => exact fun url st h => h
  | succ g ih =>
    intro url st h
    simp only [crawlGas]
    by_cases hv : url ∈ st.visited
    · rw [if_pos hv]; exact h
    · rw [if_neg hv]
      exact crawlStep_preserve _ m P (fun u st hp => ih u st hp) hins _ _ (hvis url st h)

theorem crawlGas_visited_mono (m : Mapper) (fetch : String → Option (List String))
    (x : String) :
    ∀ (gas : Nat) (url : String) (st : CrawlSt),
      x ∈ st.visited → x ∈ (crawlGas m fetch gas url st).visited :=
  crawlGas_preserve m fetch (fun st => x ∈ st.visited)
    (fun _ _ h => mem_insertS.mpr (Or.inr h))
    (fun _ _ h _ => h)

theorem crawlGas_allLinks_mono (m : Mapper) (fetch : String → Option (List String))
    (x : String) :
    ∀ (gas : Nat) (url : String) (st : CrawlSt),
      x ∈ st.all_links → x ∈ (crawlGas m fetch gas url st).all_links :=
  crawlGas_preserve m fetch (fun st => x ∈ st.all_links)
    (fun _ _ h => h)
    (fun _ _ h _ => mem_insertS.mpr (Or.inr h))

theorem crawlGas_allLinks_nodup (m : Mapper) (fetch : String → Option (List String)) :
    ∀ (gas : Nat) (url : String) (st : CrawlSt),
      st.all_links.Nodup → (crawlGas m fetch gas url st).all_links.Nodup :=
  crawlGas_preserve m fetch (fun st => st.all_links.Nodup)
    (fun _ _ h => h)
    (fun _ _ h _ => nodup_insertS h)

theorem crawlGas_visited_nodup (m : Mapper) (fetch : String → Option (List String)) :
    ∀ (gas : Nat) (url : String) (st : CrawlSt),
      st.visited.Nodup → (crawlGas m fetch gas url st).visited.Nodup :=
  crawlGas_preserve m fetch (fun st => st.visited.Nodup)
    (fun _ _ h => nodup_insertS h)
    (fun _ _ h _ => h)

/-- Invariant behind claim C7: once a URL is in `visited` it can never
enter `all_links`, because the code only adds a resolved link after the
`absolute_url not in self.visited` check. -/
theorem crawlGas_guard (m : Mapper) (fetch : String → Option (List String))
    (d : String) :
    ∀ (gas : Nat) (url : String) (st : CrawlSt),
      d ∈ st.visited ∧ d ∉ st.all_links →
      d ∈ (crawlGas m fetch gas url st).visited ∧
        d ∉ (crawlGas m fetch gas url st).all_links :=
  crawlGas_preserve m fetch (fun st => d ∈ st.visited ∧ d ∉ st.all_links)
    (fun _ _ h => ⟨mem_insertS.mpr (Or.inr h.1), h.2⟩)
    (fun u st h hu => ⟨h.1, fun hmem => by
      rcases mem_insertS.mp hmem with rfl | hmem
      · exact hu h.1
      · exact h.2 hmem⟩)

/-- Crawling from `d` itself never puts `d` into `all_links`: the seed is
marked visited before any link of any page is processed. -/
theorem domain_notin_allLinks (m : Mapper) (fetch : String → Option (List String)) :
    ∀ (gas : Nat) (st : CrawlSt), m.domain ∉ st.all_links →
      m.domain ∉ (crawlGas m fetch gas m.domain st).all_links := by
  intro gas st h
  cases gas with
  | zero => exact h
  | succ g =>
    simp only [crawlGas]
    by_cases hv : m.domain ∈ st.visited
    · rw [if_pos hv]; exact h
    · rw [if_neg hv]
      have hstart : m.domain ∈ (insertS m.domain st.visited) :=
        mem_insertS.mpr (Or.inl rfl)
      exact (crawlStep_preserve (crawlGas m fetch g) m
        (fun st => m.domain ∈ st.visited ∧ m.domain ∉ st.all_links)
        (fun u st hp => crawlGas_guard m fetch m.domain g u st hp)
        (fun u st hp hu => ⟨hp.1, fun hmem => by
          rcases mem_insertS.mp hmem with rfl | hmem
          · exact hu hp.1
          · exact hp.2 hmem⟩)
        (clean_links (linksOf fetch m.domain))
        { visited := insertS m.domain st.visited, all_links := st.all_links }
        ⟨hstart, h⟩).2

/-- Invariant behind claim C3: every visited URL is the seed or a
discovered link (each recursive call adds its URL to `all_links` first). -/
def visitedCovered (d : String) (st : CrawlSt) : Prop :=
  ∀ x ∈ st.visited, x = d ∨ x ∈ st.all_links

theorem crawlStep_covered (rec : String → CrawlSt → CrawlSt) (m : Mapper) (d : String)
    (hrec : ∀ u st, visitedCovered d st → (u = d ∨ u ∈ st.all_links) →
      visitedCovered d (rec u st)) :
    ∀ (ls : List String) (st : CrawlSt),
      visitedCovered d st → visitedCovered d (crawlStep rec m ls st) := by
  intro ls
  induction ls with
  | nil => exact fun st h => h
  | cons l ls ih =>
    intro st h
    simp only [crawlStep]
    apply ih
    by_cases hc : m.is_valid_url (urljoinRooted m.domain l) = true ∧
        urljoinRooted m.domain l ∉ st.visited
    · rw [if_pos hc]
      apply hrec
      · intro x hx
        rcases h x hx with rfl | hx2
        · exact Or.inl rfl
        · exact Or.inr (mem_insertS.mpr (Or.inr hx2))
      · exact Or.inr (mem_insertS.mpr (Or.inl rfl))
    · rw [if_neg hc]
      exact h

theorem crawlGas_covered (m : Mapper) (fetch : String → Option (List String))
    (d : String) :
    ∀ (gas : Nat) (url : String) (st : CrawlSt),
      visitedCovered d st → (url = d ∨ url ∈ st.all_links) →
      visitedCovered d (crawlGas m fetch gas url st) := by
  intro gas
  induction gas with
  | zero => exact fun url st h _ => h
  | succ g ih =>
    intro url st h hurl
    simp only [crawlGas]
    by_cases hv : url ∈ st.visited
    · rw [if_pos hv]; exact h
    · rw [if_neg hv]
      apply crawlStep_covered (crawlGas m fetch g) m d
        (fun u st hp hu => ih u st hp hu)
      intro x hx
      rcases mem_insertS.mp hx with rfl | hx
      · exact hurl
      · exact h x hx

/-- When the gas is positive (the depth bound allows it), the start URL
ends up visited. -/
theorem crawlGas_visits (m : Mapper) (fetch : String → Option (List String)) :
    ∀ (gas : Nat) (url : String) (st : CrawlSt), 0 < gas →
      url ∈ (crawlGas m fetch gas url st).visited := by
  intro gas url st hg
  cases gas with
  | zero => omega
  | succ g =>
    simp only [crawlGas]
    by_cases hv : url ∈ st.visited
    · rw [if_pos hv]; exact hv
    · rw [if_neg hv]
      exact crawlStep_preserve _ m (fun st => url ∈ st.visited)
        (fun u st hp => crawlGas_visited_mono m fetch url g u st hp)
        (fun _ _ hp _ => hp)
        _ _ (mem_insertS.mpr (Or.inl rfl))

/-! Lemmas about the lexicographic order used by `sorted`. -/

theorem lexLe_total : ∀ a b : List Char, lexLe a b = true ∨ lexLe b a = true := by
  intro a
  induction a with
  | nil => exact fun b => Or.inl rfl
  | cons c cs ih =>
    intro b
    cases b with
    | nil => exact Or.inr rfl
    | cons d ds =>
      simp only [lexLe]
      rcases Nat.lt_trichotomy c.toNat d.toNat with h | h | h
      · left; rw [if_pos h]
      · have h1 : ¬c.toNat < d.toNat := by omega
        have h2 : ¬d.toNat < c.toNat := by omega
        rw [if_neg h1, if_neg h2, if_neg h2, if_neg h1]
        exact ih ds
      · right; rw [if_pos h]

theorem lexLe_trans :
    ∀ a b c : List Char, lexLe a b = true → lexLe b c = true → lexLe a c = true := by
  intro a
  induction a with
  | nil => exact fun _ _ _ _ => rfl
  | cons x xs ih =>
    intro b c hab hbc
    cases b with
    | nil => simp [lexLe] at hab
    | cons y ys =>
      cases c with
      | nil => simp [lexLe] at hbc
      | cons z zs =>
        simp only [lexLe] at hab hbc ⊢
        rcases Nat.lt_trichotomy x.toNat y.toNat with hxy | hxy | hxy
        · rcases Nat.lt_trichotomy y.toNat z.toNat with hyz | hyz | hyz
          · rw [if_pos (by omega : x.toNat < z.toNat)]
          · rw [if_pos (by omega : x.toNat < z.toNat)]
          · rw [if_neg (by omega : ¬y.toNat < z.toNat), if_pos (by omega : z.toNat < y.toNat)] at hbc
            cases hbc
        · rcases Nat.lt_trichotomy y.toNat z.toNat with hyz | hyz | hyz
          · rw [if_pos (by omega : x.toNat < z.toNat)]
          · rw [if_neg (by omega : ¬x.toNat < z.toNat), if_neg (by omega : ¬z.toNat < x.toNat)]
            rw [if_neg (by omega : ¬x.toNat < y.toNat), if_neg (by omega : ¬y.toNat < x.toNat)] at hab
            rw [if_neg (by omega : ¬y.toNat < z.toNat), if_neg (by omega : ¬z.toNat < y.toNat)] at hbc
            exact ih ys zs hab hbc
          · rw [if_neg (by omega : ¬y.toNat < z.toNat), if_pos (by omega : z.toNat < y.toNat)] at hbc
            cases hbc
        · rw [if_neg (by omega : ¬x.toNat < y.toNat), if_pos (by omega : y.toNat < x.toNat)] at hab
          cases hab

theorem strLe_trans :
    ∀ a b c : String, strLe a b = true → strLe b c = true → strLe a c = true :=
  fun a b c => lexLe_trans a.data b.data c.data

theorem strLe_total : ∀ a b : String, (strLe a b || strLe b a) = true := by
  intro a b
  rcases lexLe_total a.data b.data with h | h <;> simp [strLe, h]

theorem clean_links_eq_self (links : List String) (hnd : links.Nodup)
    (hv : ∀ l ∈ links, (!l.data.isEmpty && linkMatches l) = true) :
    clean_links links = links := by
  unfold clean_links
  rw [List.filter_eq_self.mpr hv]
  exact dedupFirst_eq_self [] links hnd (fun x _ hx => List.not_mem_nil x hx)

/-- Sanity lemma tying the gas-indexed recursion back to the literal
control flow of `Mapper.crawl(url, depth)`: depth guard first, then the
visited guard, then mark visited and loop over the cleaned links with
recursive calls at `depth + 1`. -/
theorem crawl_unfold (m : Mapper) (fetch : String → Option (List String))
    (url : String) (depth : Int) (st : CrawlSt) :
    m.crawl fetch url depth st =
      if m.max_depth < depth then st
      else if url ∈ st.visited then st
      else crawlStep (fun u s => m.crawl fetch u (depth + 1) s) m
        (clean_links (linksOf fetch url))
        { visited := insertS url st.visited, all_links := st.all_links } := by
  unfold Mapper.crawl
  by_cases h : m.max_depth < depth
  · rw [if_pos h]
    have h0 : (m.max_depth + 1 - depth).toNat = 0 := by omega
    rw [h0]
    rfl
  · rw [if_neg h]
    have h1 : (m.max_depth + 1 - depth).toNat = (m.max_depth - depth).toNat + 1 := by omega
    rw [h1]
    simp only [crawlGas]
    have h2 : m.max_depth + 1 - (depth + 1) = m.max_depth - depth := by ring
    simp only [h2]

/-! Claim theorems. -/

/-- Claim C1, counterexample: the string "http://google.com." does not
match the spec's absolute-domain pattern anchored at both ends, yet
constructing a Mapper from it does not raise — `findall` locates the
substring "http://google.com" and construction succeeds with that
substring as the stored domain.  (The repository's own test
`test_domain_pattern_invalid` asserts that `findall('http://google.com.')`
is non-empty, confirming this is intended behaviour, not a bug.) -/
theorem C1_counterexample :
    specDomainFullMatch "http://google.com." = false ∧
    Mapper.init "http://google.com." 2 1 =
      Except.ok { domain := "http://google.com", max_depth := 2, rate_limit := 1 } :=
  ⟨by decide, by decide⟩

/-- Claim C1, amended: construction raises `MapperURLInvalidError`
(whose message is the fixed string) exactly when the input contains no
substring matching the unanchored domain pattern, regardless of
`max_depth`/`rate_limit`; a full anchored match is sufficient for
acceptance but not necessary. -/
theorem C1_amended_init_error_iff_no_match (s : String) (d : Int) (r : Rat) :
    (Mapper.init s d r = Except.error MapperErros.urlInvalid ↔ findFirstDomain s = none) ∧
    MapperErros.message MapperErros.urlInvalid = "URL fornecida não é válida." := by
  refine ⟨?_, rfl⟩
  unfold Mapper.init
  cases hf : findFirstDomain s with
  | none => simp
  | some mtch => simp

/-- Claim C6: calling `crawl(url, depth)` with `depth > max_depth`
returns immediately and changes neither `visited` nor `all_links` (in
particular the URL is not marked visited), for every mapper, fetch
oracle, URL, and prior state — the depth guard precedes the visited
guard. -/
theorem C6_depth_exceeded_noop (m : Mapper) (fetch : String → Option (List String))
    (url : String) (depth : Int) (st : CrawlSt) (h : m.max_depth < depth) :
    m.crawl fetch url depth st = st := by
  unfold Mapper.crawl
  have h0 : (m.max_depth + 1 - depth).toNat = 0 := by omega
  rw [h0]
  rfl

/-- Witness for C6 at a concrete over-limit depth: nothing changes, the
URL is not marked visited. -/
theorem C6_witness :
    Mapper.crawl { domain := "http://h.com", max_depth := 2, rate_limit := 1 }
      (fun _ => some ["/x"]) "http://h.com/z" 3
      { visited := ["http://q.com"], all_links := ["http://r.com"] } =
      { visited := ["http://q.com"], all_links := ["http://r.com"] } :=
  C6_depth_exceeded_noop { domain := "http://h.com", max_depth := 2, rate_limit := 1 }
    (fun _ => some ["/x"]) "http://h.com/z" 3
    { visited := ["http://q.com"], all_links := ["http://r.com"] } (by decide)

/-- Claim C7: for every crawl started the way `map_web_site` starts it
(seed = stored domain), the stored domain string never enters
`all_links` — the seed is marked visited before any link processing and
a resolved link equal to a visited URL is never added — and hence never
appears in the returned sorted sequence.  The hypothesis only asks that
the domain is not already in `all_links` beforehand (it never is: a
fresh Mapper starts with both sets empty, and the property re-establishes
itself across repeated `map_web_site` calls). -/
theorem C7_domain_never_discovered (m : Mapper)
    (fetch : String → Option (List String)) (st : CrawlSt)
    (h : m.domain ∉ st.all_links) :
    m.domain ∉ (m.crawl fetch m.domain 0 st).all_links ∧
    m.domain ∉ m.map_web_site fetch st := by
  have h1 : m.domain ∉ (m.crawl fetch m.domain 0 st).all_links :=
    domain_notin_allLinks m fetch _ st h
  refine ⟨h1, fun hmem => h1 ?_⟩
  exact (List.mergeSort_perm (m.crawl fetch m.domain 0 st).all_links strLe).subset hmem

/-- Witness for C7 on a concrete crawl (a page that links back to the
root via "/" and to a sub-page): the stored domain is in neither the
discovered set nor the output. -/
theorem C7_witness :
    "http://w.com" ∉ (Mapper.crawl { domain := "http://w.com", max_depth := 2, rate_limit := 1 }
      (fun u => if u = "http://w.com" then some ["/", "/p"] else some [])
      "http://w.com" 0 { visited := [], all_links := [] }).all_links ∧
    "http://w.com" ∉ Mapper.map_web_site { domain := "http://w.com", max_depth := 2, rate_limit := 1 }
      (fun u => if u = "http://w.com" then some ["/", "/p"] else some [])
      { visited := [], all_links := [] } :=
  C7_domain_never_discovered { domain := "http://w.com", max_depth := 2, rate_limit := 1 }
    (fun u => if u = "http://w.com" then some ["/", "/p"] else some [])
    { visited := [], all_links := [] } (by decide)

/-- Claim C8, counterexample: the claim fails on a list of already-valid
relative links containing an exact duplicate — both entries are non-empty
and match `LINK_PATTERN`, yet `_clean_links` returns a single-element
list because the set comprehension collapses duplicates. -/
theorem C8_counterexample :
    (∀ l ∈ (["/a", "/a"] : List String), (!l.data.isEmpty && linkMatches l) = true) ∧
    (clean_links ["/a", "/a"]).length ≠ (["/a", "/a"] : List String).length := by
  decide

/-- Claim C8, amended: on a duplicate-free list of already-valid relative
links (each non-empty and starting with "/"), link cleaning drops no
entries: the result has the same length and the same elements (cleaning
is a no-op up to the set collapse, which only merges exact duplicates). -/
theorem C8_amended_nodup_clean (links : List String) (hnd : links.Nodup)
    (hv : ∀ l ∈ links, (!l.data.isEmpty && linkMatches l) = true) :
    (clean_links links).length = links.length ∧ (clean_links links).Perm links := by
  rw [clean_links_eq_self links hnd hv]
  exact ⟨rfl, List.Perm.refl links⟩

/-- Witness for C8 on the spec's own example list. -/
theorem C8_witness :
    (clean_links ["/a", "/a/", "/a.html"]).length = (["/a", "/a/", "/a.html"] : List String).length ∧
    (clean_links ["/a", "/a/", "/a.html"]).Perm ["/a", "/a/", "/a.html"] :=
  C8_amended_nodup_clean ["/a", "/a/", "/a.html"] (by decide) (by decide)

/-- Claim C9: whenever the input string contains a substring matching the
unanchored domain pattern, construction succeeds and the stored domain is
the first (leftmost, greedy) matching substring with leading/trailing
slash characters stripped — not the input string itself. -/
theorem C9_init_first_match (s : String) (d : Int) (r : Rat) (mtch : String)
    (h : findFirstDomain s = some mtch) :
    Mapper.init s d r =
      Except.ok { domain := stripSlashes mtch, max_depth := d, rate_limit := r } := by
  unfold Mapper.init
  rw [h]

/-- Witness for C9: prose with an embedded URL constructs successfully;
the stored domain is the embedded match with its trailing slash
stripped. -/
theorem C9_witness :
    findFirstDomain "see http://example.com/ now" = some "http://example.com/" ∧
    Mapper.init "see http://example.com/ now" 2 1 =
      Except.ok { domain := stripSlashes "http://example.com/", max_depth := 2, rate_limit := 1 } ∧
    stripSlashes "http://example.com/" = "http://example.com" :=
  ⟨by decide,
   C9_init_first_match "see http://example.com/ now" 2 1 "http://example.com/" (by decide),
   by decide⟩

/-- Claim C10: on a page whose markup yields the raw link "/", the
crawler resolves it against the slash-stripped stored domain to
domain ++ "/", a different string that passes `_is_valid_url`, is not in
the visited set at that point, and is therefore both discovered
(added to `all_links`) and fetched (added to `visited`): the seed page is
reachable as a discovered link under its trailing-slash spelling. -/
theorem C10_seed_rediscovered_with_slash :
    clean_links ["/"] = ["/"] ∧
    urljoinRooted "http://site.com" "/" = "http://site.com/" ∧
    "http://site.com/" ≠ "http://site.com" ∧
    Mapper.is_valid_url { domain := "http://site.com", max_depth := 2, rate_limit := 1 }
      "http://site.com/" = true ∧
    "http://site.com/" ∉ (["http://site.com"] : List String) ∧
    "http://site.com/" ∈ (Mapper.crawl { domain := "http://site.com", max_depth := 2, rate_limit := 1 }
      (fun u => if u = "http://site.com" then some ["/"] else some [])
      "http://site.com" 0 { visited := [], all_links := [] }).all_links ∧
    "http://site.com/" ∈ (Mapper.crawl { domain := "http://site.com", max_depth := 2, rate_limit := 1 }
      (fun u => if u = "http://site.com" then some ["/"] else some [])
      "http://site.com" 0 { visited := [], all_links := [] }).visited := by
  decide

/-- Claim C2: for every mapper, fetch oracle, and crawl state with a
duplicate-free discovered-link set, `map_web_site()` returns a sequence
sorted ascending in the lexicographic code-point order, with distinct
elements, that is a permutation of (hence has exactly the members of) the
crawler's discovered-link set `all_links`. -/
theorem C2_map_web_site_sorted_nodup_perm (m : Mapper)
    (fetch : String → Option (List String)) (st : CrawlSt)
    (h : st.all_links.Nodup) :
    List.Pairwise (fun a b => strLe a b = true) (m.map_web_site fetch st) ∧
    (m.map_web_site fetch st).Nodup ∧
    (m.map_web_site fetch st).Perm (m.crawl fetch m.domain 0 st).all_links := by
  unfold Mapper.map_web_site Mapper.crawl
  have hperm := List.mergeSort_perm
    (crawlGas m fetch (m.max_depth + 1 - 0).toNat m.domain st).all_links strLe
  have hnd : (crawlGas m fetch (m.max_depth + 1 - 0).toNat m.domain st).all_links.Nodup :=
    crawlGas_allLinks_nodup m fetch _ _ st h
  exact ⟨List.sorted_mergeSort (fun a b c => strLe_trans a b c)
      (fun a b => strLe_total a b) _,
    hperm.nodup_iff.mpr hnd, hperm⟩

/-- Witness for C2 on a concrete crawl (two pages discovered out of
order). -/
theorem C2_witness :
    List.Pairwise (fun a b => strLe a b = true)
      (Mapper.map_web_site { domain := "http://m.com", max_depth := 2, rate_limit := 1 }
        (fun u => if u = "http://m.com" then some ["/b", "/a"] else some [])
        { visited := [], all_links := [] }) ∧
    (Mapper.map_web_site { domain := "http://m.com", max_depth := 2, rate_limit := 1 }
      (fun u => if u = "http://m.com" then some ["/b", "/a"] else some [])
      { visited := [], all_links := [] }).Nodup ∧
    (Mapper.map_web_site { domain := "http://m.com", max_depth := 2, rate_limit := 1 }
      (fun u => if u = "http://m.com" then some ["/b", "/a"] else some [])
      { visited := [], all_links := [] }).Perm
      (Mapper.crawl { domain := "http://m.com", max_depth := 2, rate_limit := 1 }
        (fun u => if u = "http://m.com" then some ["/b", "/a"] else some [])
        "http://m.com" 0 { visited := [], all_links := [] }).all_links :=
  C2_map_web_site_sorted_nodup_perm { domain := "http://m.com", max_depth := 2, rate_limit := 1 }
    (fun u => if u = "http://m.com" then some ["/b", "/a"] else some [])
    { visited := [], all_links := [] } (by decide)

/-- Claim C4: the in-domain/content-eligible check accepts a URL iff its
netloc (host+port as parsed by `urlparse`) equals the configured domain's
netloc — scheme plays no role — and its path ends with none of the
blocked extensions; in particular, for a mapper on "http://host.com",
"http://host.com/file.pdf" and "https://host2.com" are rejected while
"http://host.com" and "https://host.com" are accepted. -/
theorem C4_is_valid_url_iff (m : Mapper) (url : String) :
    (m.is_valid_url url = true ↔
      ((urlparseL url.data).netloc = (urlparseL m.domain.data).netloc ∧
        ∀ e ∈ ([".pdf", ".jpg", ".jpeg", ".png", ".gif", ".svg"] : List String),
          endsWithL (urlparseL url.data).path e.data = false)) ∧
    (m.domain = "http://host.com" →
      m.is_valid_url "http://host.com/file.pdf" = false ∧
      m.is_valid_url "https://host2.com" = false ∧
      m.is_valid_url "http://host.com" = true ∧
      m.is_valid_url "https://host.com" = true) := by
  constructor
  · unfold Mapper.is_valid_url
    by_cases hn : (urlparseL url.data).netloc = (urlparseL m.domain.data).netloc
    · rw [if_pos hn]
      by_cases he : ([".pdf", ".jpg", ".jpeg", ".png", ".gif", ".svg"] : List String).any
          (fun e => endsWithL (urlparseL url.data).path e.data) = true
      · rw [if_pos he]
        constructor
        · intro h; exact (Bool.false_ne_true h).elim
        · rintro ⟨-, hall⟩
          rcases List.any_eq_true.mp he with ⟨e, hmem, hpe⟩
          rw [hall e hmem] at hpe
          exact (Bool.false_ne_true hpe).elim
      · rw [if_neg he]
        have hall : ∀ e ∈ ([".pdf", ".jpg", ".jpeg", ".png", ".gif", ".svg"] : List String),
            endsWithL (urlparseL url.data).path e.data = false := by
          intro e hmem
          cases hb : endsWithL (urlparseL url.data).path e.data
          · rfl
          · exact absurd (List.any_eq_true.mpr ⟨e, hmem, hb⟩) he
        exact ⟨fun _ => ⟨hn, hall⟩, fun _ => rfl⟩
    · rw [if_neg hn]
      constructor
      · intro h; exact (Bool.false_ne_true h).elim
      · rintro ⟨hn2, -⟩; exact absurd hn2 hn
  · intro hdom
    simp only [Mapper.is_valid_url, hdom]
    decide

/-- Witness for C4: the four concrete eligibility checks of the claim,
for a mapper configured on "http://host.com". -/
theorem C4_witness :
    Mapper.is_valid_url { domain := "http://host.com", max_depth := 2, rate_limit := 1 }
      "http://host.com/file.pdf" = false ∧
    Mapper.is_valid_url { domain := "http://host.com", max_depth := 2, rate_limit := 1 }
      "https://host2.com" = false ∧
    Mapper.is_valid_url { domain := "http://host.com", max_depth := 2, rate_limit := 1 }
      "http://host.com" = true ∧
    Mapper.is_valid_url { domain := "http://host.com", max_depth := 2, rate_limit := 1 }
      "https://host.com" = true :=
  (C4_is_valid_url_iff { domain := "http://host.com", max_depth := 2, rate_limit := 1 }
    "http://host.com").2 rfl

/-- Claim C5: when fetching the seed page fails, the crawl still
terminates cleanly with exactly the seed in `visited` and `all_links`
empty, and the failure is recovered locally as zero links for that node
(it never propagates: the traversal is a total function).  The
`0 ≤ max_depth` hypothesis reflects the spec's CrawlConfig (a crawl with
a negative depth budget never even visits the seed). -/
theorem C5_seed_fetch_failure (m : Mapper) (fetch : String → Option (List String))
    (h0 : 0 ≤ m.max_depth) (hf : fetch m.domain = none) :
    m.crawl fetch m.domain 0 { visited := [], all_links := [] } =
      { visited := [m.domain], all_links := [] } ∧
    linksOf fetch m.domain = [] := by
  have hl : linksOf fetch m.domain = [] := by unfold linksOf; rw [hf]; rfl
  refine ⟨?_, hl⟩
  unfold Mapper.crawl
  have hg : (m.max_depth + 1 - 0).toNat = m.max_depth.toNat + 1 := by omega
  rw [hg]
  simp only [crawlGas, hl]
  rfl

/-- Witness for C5: a concrete mapper whose fetch always fails. -/
theorem C5_witness :
    Mapper.crawl { domain := "http://h.com", max_depth := 2, rate_limit := 1 }
      (fun _ => none) "http://h.com" 0 { visited := [], all_links := [] } =
      { visited := ["http://h.com"], all_links := [] } ∧
    linksOf (fun _ => (none : Option (List String))) "http://h.com" = [] :=
  C5_seed_fetch_failure { domain := "http://h.com", max_depth := 2, rate_limit := 1 }
    (fun _ => none) (by decide) rfl

/-- Claim C3, counterexample: a site graph whose seed page links to the
two distinct followable sub-pages "/a" and "/b" (and "/a" links on to
"/c"), crawled in full with `max_depth = 1`: the deep link "/c" is
discovered but depth-gated, so the visited set and the discovered-link
set both end up with exactly three elements — the claimed inequality of
cardinalities fails. -/
theorem C3_counterexample :
    ("/a" : String) ≠ "/b" ∧
    clean_links (linksOf
      (fun u => if u = "http://x.com" then some ["/a", "/b"]
                else if u = "http://x.com/a" then some ["/c"] else some [])
      "http://x.com") = ["/a", "/b"] ∧
    (Mapper.crawl { domain := "http://x.com", max_depth := 1, rate_limit := 1 }
      (fun u => if u = "http://x.com" then some ["/a", "/b"]
                else if u = "http://x.com/a" then some ["/c"] else some [])
      "http://x.com" 0 { visited := [], all_links := [] }).visited.length =
    (Mapper.crawl { domain := "http://x.com", max_depth := 1, rate_limit := 1 }
      (fun u => if u = "http://x.com" then some ["/a", "/b"]
                else if u = "http://x.com/a" then some ["/c"] else some [])
      "http://x.com" 0 { visited := [], all_links := [] }).all_links.length := by
  decide

/-- Claim C3, amended: after a full crawl from the seed on a fresh state
in which no discovered link was cut off by the depth bound (every member
of `all_links` was actually visited), the visited set has exactly one
more element than the discovered-link set — the seed — so the two
cardinalities always differ.  (The original claim's inequality fails
precisely when depth gating balances the counts, as the counterexample
shows; the branching hypothesis is not needed.) -/
theorem C3_amended_visited_count (m : Mapper) (fetch : String → Option (List String))
    (h0 : 0 ≤ m.max_depth)
    (hall : ∀ x ∈ (m.crawl fetch m.domain 0 { visited := [], all_links := [] }).all_links,
      x ∈ (m.crawl fetch m.domain 0 { visited := [], all_links := [] }).visited) :
    (m.crawl fetch m.domain 0 { visited := [], all_links := [] }).visited.length =
      (m.crawl fetch m.domain 0 { visited := [], all_links := [] }).all_links.length + 1 := by
  unfold Mapper.crawl at hall ⊢
  set F := crawlGas m fetch (m.max_depth + 1 - 0).toNat m.domain
    { visited := [], all_links := [] } with hF
  have hg : 0 < (m.max_depth + 1 - 0).toNat := by omega
  have hd : m.domain ∈ F.visited := by
    rw [hF]; exact crawlGas_visits m fetch _ m.domain _ hg
  have hcov : visitedCovered m.domain F := by
    rw [hF]
    exact crawlGas_covered m fetch m.domain _ m.domain { visited := [], all_links := [] }
      (fun x hx => absurd hx (List.not_mem_nil x)) (Or.inl rfl)
  have hnin : m.domain ∉ F.all_links := by
    rw [hF]
    exact domain_notin_allLinks m fetch _ { visited := [], all_links := [] }
      (List.not_mem_nil _)
  have hndv : F.visited.Nodup := by
    rw [hF]; exact crawlGas_visited_nodup m fetch _ _ _ List.nodup_nil
  have hnda : F.all_links.Nodup := by
    rw [hF]; exact crawlGas_allLinks_nodup m fetch _ _ _ List.nodup_nil
  have hfin : F.visited.toFinset = insert m.domain F.all_links.toFinset := by
    ext x
    simp only [List.mem_toFinset, Finset.mem_insert]
    constructor
    · intro hx
      rcases hcov x hx with rfl | hx2
      · exact Or.inl rfl
      · exact Or.inr hx2
    · rintro (rfl | hx2)
      · exact hd
      · exact hall x hx2
  have hcard : F.visited.toFinset.card = F.all_links.toFinset.card + 1 := by
    rw [hfin]
    exact Finset.card_insert_of_not_mem (fun hx => hnin (List.mem_toFinset.mp hx))
  rwa [List.toFinset_card_of_nodup hndv, List.toFinset_card_of_nodup hnda] at hcard

/-- Witness for C3 (amended): a branching site crawled deep enough that
nothing is depth-gated; the visited count exceeds the discovered count by
exactly one. -/
theorem C3_witness :
    (Mapper.crawl { domain := "http://y.com", max_depth := 2, rate_limit := 1 }
      (fun u => if u = "http://y.com" then some ["/a", "/b"] else some [])
      "http://y.com" 0 { visited := [], all_links := [] }).visited.length =
    (Mapper.crawl { domain := "http://y.com", max_depth := 2, rate_limit := 1 }
      (fun u => if u = "http://y.com" then some ["/a", "/b"] else some [])
      "http://y.com" 0 { visited := [], all_links := [] }).all_links.length + 1 :=
  C3_amended_visited_count { domain := "http://y.com", max_depth := 2, rate_limit := 1 }
    (fun u => if u = "http://y.com" then some ["/a", "/b"] else some [])
    (by decide) (by decide)
